import Mathlib

/-!
Verification of the libcoap endpoint core (coap2/net.h) against its
natural-language specification.  The repository ships the public header
`src/include/coap2/net.h`; functions whose bodies are not in the header are
modelled from the specification text, as marked in the doc comments.
Machine integers are modelled as `Nat` with explicit `% 2 ^ w` where wraparound
matters.
-/

namespace LibCoap

/-- Message types of RFC 7252 on unreliable transports. -/
inductive coap_pdu_type where
  | CON
  | NON
  | ACK
  | RST
deriving DecidableEq, Repr

/-- In-memory PDU attributes relevant to the transmission state machine:
type, 16-bit message id, and token (0-8 bytes, each byte a `Nat`). -/
structure coap_pdu_t where
  ptype : coap_pdu_type
  mid : Nat
  token : List Nat
deriving DecidableEq, Repr

/-- Reasons handed to the nack handler (coap_nack_reason_t; values per the
spec taxonomy: TIMEOUT, RST, TLS_FAILURE, ICMP, CANCELLED). -/
inductive coap_nack_reason_t where
  | timeout
  | rst
  | tls_failed
  | icmp_issue
  | cancelled
deriving DecidableEq, Repr

/-- An invocation of the registered nack handler: which session, which
message id, which reason, and the PDU that had been sent. -/
structure NackEvent where
  session : Nat
  id : Nat
  reason : coap_nack_reason_t
  pdu : coap_pdu_t
deriving DecidableEq, Repr

/-- Queue entry, from `coap_queue_t` in net.h: fire tick `t`, retransmission
counter, randomized timeout, owning session (modelled by an identifier),
message id, and the owned PDU.  The intrusive `next` pointer is replaced by
membership in a `List`. -/
structure coap_queue_t where
  t : Nat
  retransmit_cnt : Nat
  timeout : Nat
  session : Nat
  id : Nat
  pdu : coap_pdu_t
deriving DecidableEq, Repr

/-- Context state used by the claims, from `coap_context_t` in net.h: the
known-options filter (modelled as the list of registered option numbers) and
the send queue (the `sendqueue` list of queue entries). -/
structure coap_context_t where
  known_options : List Nat
  sendqueue : List coap_queue_t
deriving DecidableEq, Repr

/-- Modelled from the spec: `coap_insert_node` (body not under src/) adds a
node to the queue ordered by the variable `t` of the node, keeping the queue
sorted by fire tick ascending; a new node goes after existing entries with
the same tick. -/
def coap_insert_node : List coap_queue_t → coap_queue_t → List coap_queue_t
  | [], node => [node]
  | e :: rest, node =>
    if node.t < e.t then node :: e :: rest
    else e :: coap_insert_node rest node

/-- Returns the next PDU to send without removing it from the send queue
(`coap_peek_next`; body not under src/, modelled from the spec as the head of
the time-ordered queue). -/
def coap_peek_next (context : coap_context_t) : Option coap_queue_t :=
  context.sendqueue.head?

/-- Returns the next PDU to send and removes it from the send queue
(`coap_pop_next`; body not under src/, modelled from the spec). -/
def coap_pop_next (context : coap_context_t) : Option coap_queue_t × coap_context_t :=
  (context.sendqueue.head?, { context with sendqueue := context.sendqueue.tail })

/-- The send queue is ordered by fire tick ascending. -/
def sortedByT (q : List coap_queue_t) : Prop :=
  q.Pairwise (fun a b => a.t ≤ b.t)

theorem sortedByT_cons {e : coap_queue_t} {q : List coap_queue_t} :
    sortedByT (e :: q) ↔ (∀ x ∈ q, e.t ≤ x.t) ∧ sortedByT q := by
  simp [sortedByT, List.pairwise_cons]

theorem coap_insert_node_perm (q : List coap_queue_t) (node : coap_queue_t) :
    (coap_insert_node q node).Perm (node :: q) := by
  induction q with
  | nil => simp [coap_insert_node]
  | cons e rest ih =>
    simp only [coap_insert_node]
    by_cases h : node.t < e.t
    · simp [h]
    · simp only [h, if_false]
      exact (ih.cons e).trans (List.Perm.swap node e rest)

theorem coap_insert_node_sorted {q : List coap_queue_t} (node : coap_queue_t)
    (hq : sortedByT q) : sortedByT (coap_insert_node q node) := by
  induction q with
  | nil => simp [coap_insert_node, sortedByT]
  | cons e rest ih =>
    rw [sortedByT_cons] at hq
    obtain ⟨he, hrest⟩ := hq
    simp only [coap_insert_node]
    by_cases h : node.t < e.t
    · simp only [h, if_true]
      rw [sortedByT_cons]
      refine ⟨?_, by rw [sortedByT_cons]; exact ⟨he, hrest⟩⟩
      intro x hx
      rcases List.mem_cons.mp hx with hx | hx
      · exact hx ▸ le_of_lt h
      · exact le_trans (le_of_lt h) (he x hx)
    · simp only [h, if_false]
      rw [sortedByT_cons]
      refine ⟨?_, ih hrest⟩
      intro x hx
      have hx2 : x ∈ node :: rest :=
        (coap_insert_node_perm rest node).mem_iff.mp hx
      rcases List.mem_cons.mp hx2 with hx2 | hx2
      · exact hx2 ▸ le_of_not_lt h
      · exact he x hx2

/-- C8: the send queue stays ordered by fire tick ascending: inserting a node
with `coap_insert_node` into a sorted queue keeps it sorted (and changes the
multiset of entries only by adding the node), and `coap_peek_next` returns an
entry of the queue with minimal fire tick while leaving the queue in the
context untouched. -/
theorem coap_sendqueue_order_spec (q : List coap_queue_t) (node : coap_queue_t)
    (context : coap_context_t) (hq : sortedByT q)
    (hctx : sortedByT context.sendqueue) :
    sortedByT (coap_insert_node q node) ∧
    (coap_insert_node q node).Perm (node :: q) ∧
    (∀ e, coap_peek_next context = some e →
      e ∈ context.sendqueue ∧ ∀ x ∈ context.sendqueue, e.t ≤ x.t) := by
  refine ⟨coap_insert_node_sorted node hq, coap_insert_node_perm q node, ?_⟩
  intro e he
  cases hs : context.sendqueue with
  | nil => rw [coap_peek_next, hs] at he; simp at he
  | cons a rest =>
    rw [coap_peek_next, hs] at he
    simp only [List.head?_cons, Option.some.injEq] at he
    subst he
    rw [hs] at hctx
    rw [sortedByT_cons] at hctx
    refine ⟨List.mem_cons_self a rest, ?_⟩
    intro x hx
    rcases List.mem_cons.mp hx with hx | hx
    · exact hx ▸ le_refl _
    · exact hctx.1 x hx

/-- MAX_RETRANSMIT, defaulting to 4 per the spec transmission parameters. -/
def MAX_RETRANSMIT : Nat := 4

/-- Re-arming of a queue node on timer fire, modelled from the spec: double
the timeout, increment the retransmission counter, re-arm at now + T; the
PDU (hence message id and token) is unchanged. -/
def coap_retransmit_rearm (now : Nat) (node : coap_queue_t) : coap_queue_t :=
  { node with
    timeout := 2 * node.timeout
    retransmit_cnt := node.retransmit_cnt + 1
    t := now + 2 * node.timeout }

/-- Outcome of a retransmission timer fire: the node is re-armed, or it is
dropped and the nack handler is invoked. -/
inductive RetransmitOutcome where
  | rearmed (node : coap_queue_t)
  | dropped (ev : NackEvent)
deriving DecidableEq, Repr

/-- Modelled from the spec: `coap_retransmit` (body not under src/).  On timer
fire, if the retransmission count is below MAX_RETRANSMIT the node is re-armed
with doubled timeout and the same PDU is retransmitted; otherwise the entry is
removed and the nack handler is invoked with reason TIMEOUT. -/
def coap_retransmit (now : Nat) (node : coap_queue_t) : RetransmitOutcome :=
  if node.retransmit_cnt < MAX_RETRANSMIT then
    .rearmed (coap_retransmit_rearm now node)
  else
    .dropped ⟨node.session, node.id, .timeout, node.pdu⟩

/-- Number of retransmissions performed when the timer fires at the given
instants: each fire below the limit retransmits once and re-arms; reaching
the limit removes the entry, after which nothing more is sent. -/
def retransmissions : coap_queue_t → List Nat → Nat
  | _, [] => 0
  | node, now :: rest =>
    match coap_retransmit now node with
    | .rearmed node2 => 1 + retransmissions node2 rest
    | .dropped _ => 0

theorem retransmissions_le (nows : List Nat) (node : coap_queue_t) :
    retransmissions node nows ≤ MAX_RETRANSMIT - node.retransmit_cnt := by
  induction nows generalizing node with
  | nil => simp [retransmissions]
  | cons now rest ih =>
    by_cases h : node.retransmit_cnt < MAX_RETRANSMIT
    · have hr : retransmissions node (now :: rest)
          = 1 + retransmissions (coap_retransmit_rearm now node) rest := by
        simp [retransmissions, coap_retransmit, h]
      have h2 := ih (coap_retransmit_rearm now node)
      have hcnt : (coap_retransmit_rearm now node).retransmit_cnt
          = node.retransmit_cnt + 1 := rfl
      rw [hr]
      rw [hcnt] at h2
      omega
    · have hr : retransmissions node (now :: rest) = 0 := by
        simp [retransmissions, coap_retransmit, h]
      rw [hr]
      exact Nat.zero_le _

/-- C2: on timer fire with count below MAX_RETRANSMIT the timeout doubles,
the count increments, the node is re-armed at now + T with the same PDU
(same message id, same token); when the count has reached MAX_RETRANSMIT the
entry is dropped and the nack handler is invoked with reason TIMEOUT; for any
sequence of timer fires a CON starting at count 0 is transmitted at most
MAX_RETRANSMIT + 1 times in total (initial transmission plus
retransmissions). -/
theorem coap_retransmit_spec (now : Nat) (node : coap_queue_t) :
    (node.retransmit_cnt < MAX_RETRANSMIT →
      coap_retransmit now node = .rearmed (coap_retransmit_rearm now node) ∧
      (coap_retransmit_rearm now node).timeout = 2 * node.timeout ∧
      (coap_retransmit_rearm now node).retransmit_cnt = node.retransmit_cnt + 1 ∧
      (coap_retransmit_rearm now node).t
        = now + (coap_retransmit_rearm now node).timeout ∧
      (coap_retransmit_rearm now node).pdu = node.pdu ∧
      (coap_retransmit_rearm now node).id = node.id ∧
      (coap_retransmit_rearm now node).pdu.token = node.pdu.token) ∧
    (MAX_RETRANSMIT ≤ node.retransmit_cnt →
      coap_retransmit now node
        = .dropped ⟨node.session, node.id, .timeout, node.pdu⟩) ∧
    (∀ nows : List Nat, node.retransmit_cnt = 0 →
      1 + retransmissions node nows ≤ MAX_RETRANSMIT + 1) := by
  refine ⟨?_, ?_, ?_⟩
  · intro h
    exact ⟨by simp [coap_retransmit, h], rfl, rfl, rfl, rfl, rfl, rfl⟩
  · intro h
    simp [coap_retransmit, Nat.not_lt.mpr h]
  · intro nows h0
    have := retransmissions_le nows node
    rw [h0] at this
    omega

/-- Witness for C2 at a concrete node with counter 0 and three timer fires. -/
theorem coap_retransmit_witness :
    1 + retransmissions ⟨7, 0, 2, 1, 42, ⟨.CON, 42, [9]⟩⟩ [7, 11, 19]
      ≤ MAX_RETRANSMIT + 1 :=
  (coap_retransmit_spec 7 ⟨7, 0, 2, 1, 42, ⟨.CON, 42, [9]⟩⟩).2.2 [7, 11, 19] rfl

/-- Session state used by the claims, from `coap_session_t` (coap_session.h is
not under src/): the `tx_mid` transmit message id counter (a uint16_t, modelled
as a `Nat` below 2 ^ 16), and the CoAP transmission parameters `ack_timeout`
and `ack_random_factor` in Qx.FRAC_BITS fixed point notation (modelled as the
underlying `Nat` numerals scaled by 2 ^ FRAC_BITS). -/
structure coap_session_t where
  tx_mid : Nat
  ack_timeout : Nat
  ack_random_factor : Nat
deriving DecidableEq, Repr

/-- Modelled from the spec: `coap_calc_timeout` (body not under src/), per its
documentation in net.h: returns COAP_TICKS_PER_SECOND * ack_timeout *
(1 + (ack_random_factor - 1) * r), where ack_timeout and ack_random_factor
are Qx.FRAC_BITS fixed point values and r is the fractional part of a
Q0.MAX_BITS fixed point value; the arithmetic is carried out on the scaled
integers with one final right shift back to whole ticks.  FRAC_BITS, MAX_BITS
and the tick rate are parameters of the model since their numeric values are
not under src/. -/
def coap_calc_timeout (FRAC_BITS MAX_BITS ticks_per_second : Nat)
    (session : coap_session_t) (r : Nat) : Nat :=
  ticks_per_second * session.ack_timeout *
      (2 ^ (FRAC_BITS + MAX_BITS)
        + (session.ack_random_factor - 2 ^ FRAC_BITS) * r)
    / 2 ^ (2 * FRAC_BITS + MAX_BITS)

/-- C3: the fixed point computation of `coap_calc_timeout` yields exactly the
specified value COAP_TICKS_PER_SECOND * ack_timeout *
(1 + (ack_random_factor - 1) * r), interpreted over the rationals with
ack_timeout and ack_random_factor scaled by 2 ^ FRAC_BITS and r scaled by
2 ^ MAX_BITS, rounded down to whole ticks. -/
theorem coap_calc_timeout_spec (FRAC_BITS MAX_BITS ticks_per_second : Nat)
    (session : coap_session_t) (r : Nat)
    (hf : 2 ^ FRAC_BITS ≤ session.ack_random_factor) :
    coap_calc_timeout FRAC_BITS MAX_BITS ticks_per_second session r
      = ⌊(ticks_per_second : ℚ)
          * ((session.ack_timeout : ℚ) / 2 ^ FRAC_BITS)
          * (1 + ((session.ack_random_factor : ℚ) / 2 ^ FRAC_BITS - 1)
                  * ((r : ℚ) / 2 ^ MAX_BITS))⌋₊ := by
  have key : (ticks_per_second : ℚ)
        * ((session.ack_timeout : ℚ) / 2 ^ FRAC_BITS)
        * (1 + ((session.ack_random_factor : ℚ) / 2 ^ FRAC_BITS - 1)
                * ((r : ℚ) / 2 ^ MAX_BITS))
      = ((ticks_per_second * session.ack_timeout *
            (2 ^ (FRAC_BITS + MAX_BITS)
              + (session.ack_random_factor - 2 ^ FRAC_BITS) * r) : ℕ) : ℚ)
        / ((2 ^ (2 * FRAC_BITS + MAX_BITS) : ℕ) : ℚ) := by
    have hF : ((2 : ℚ)) ^ FRAC_BITS ≠ 0 := by positivity
    have hM : ((2 : ℚ)) ^ MAX_BITS ≠ 0 := by positivity
    push_cast [Nat.cast_sub hf]
    field_simp
    ring
  rw [coap_calc_timeout, key, Nat.floor_div_nat, Nat.floor_natCast]

/-- Witness for C3 with FRAC_BITS = 6, MAX_BITS = 8, 1000 ticks per second,
ack_timeout = 2.0 (128 in Q.6), ack_random_factor = 1.5 (96 in Q.6). -/
theorem coap_calc_timeout_spec_witness :
    coap_calc_timeout 6 8 1000 ⟨0, 128, 96⟩ 0
      = ⌊(1000 : ℚ) * ((128 : ℚ) / 2 ^ 6)
          * (1 + ((96 : ℚ) / 2 ^ 6 - 1) * ((0 : ℚ) / 2 ^ 8))⌋₊ :=
  coap_calc_timeout_spec 6 8 1000 ⟨0, 128, 96⟩ 0 (by norm_num)

/-- From src/ (net.h, COAP_STATIC_INLINE): `coap_new_message_id` returns
`++session->tx_mid`, i.e. pre-increments the uint16_t transmit message id
counter and returns the updated value; the increment wraps modulo 2 ^ 16. -/
def coap_new_message_id (session : coap_session_t) : Nat × coap_session_t :=
  let m := (session.tx_mid + 1) % 2 ^ 16
  (m, { session with tx_mid := m })

/-- Session state after k calls to `coap_new_message_id`. -/
def sessionAfterMids (session : coap_session_t) : Nat → coap_session_t
  | 0 => session
  | k + 1 => (coap_new_message_id (sessionAfterMids session k)).2

/-- The message id returned by the (k+1)-st call to `coap_new_message_id`. -/
def midAt (session : coap_session_t) (k : Nat) : Nat :=
  (coap_new_message_id (sessionAfterMids session k)).1

theorem sessionAfterMids_tx_mid (session : coap_session_t) (k : Nat) :
    (sessionAfterMids session k).tx_mid = (session.tx_mid + k) % 2 ^ 16 ∨
    (k = 0 ∧ (sessionAfterMids session k).tx_mid = session.tx_mid) := by
  induction k with
  | zero => exact Or.inr ⟨rfl, rfl⟩
  | succ k ih =>
    left
    rcases ih with ih | ⟨hk, ih⟩
    · show ((sessionAfterMids session k).tx_mid + 1) % 2 ^ 16 = _
      rw [ih, Nat.mod_add_mod]
      omega
    · subst hk
      show ((sessionAfterMids session 0).tx_mid + 1) % 2 ^ 16 = _
      rw [ih]

/-- C4: message id allocation is a pre-incremented per-session counter: each
call updates `tx_mid` by exactly one modulo 2 ^ 16 and returns the updated
value, so the sequence of ids allocated on one session is the arithmetic
progression tx_mid + 1, tx_mid + 2, ... modulo 2 ^ 16, i.e. monotonically
increasing mod 2 ^ 16. -/
theorem coap_new_message_id_spec (session : coap_session_t) :
    (coap_new_message_id session).1 = (session.tx_mid + 1) % 2 ^ 16 ∧
    (coap_new_message_id session).2.tx_mid = (coap_new_message_id session).1 ∧
    (∀ k : Nat, midAt session k = (session.tx_mid + (k + 1)) % 2 ^ 16) := by
  refine ⟨rfl, rfl, ?_⟩
  intro k
  rcases sessionAfterMids_tx_mid session k with h | ⟨hk, h⟩
  · show ((sessionAfterMids session k).tx_mid + 1) % 2 ^ 16 = _
    rw [h, Nat.mod_add_mod]
    ring_nf
  · subst hk
    show ((sessionAfterMids session 0).tx_mid + 1) % 2 ^ 16 = _
    rw [h]

/-- Witness for C8 at a concrete sorted queue. -/
theorem coap_sendqueue_order_witness :
    sortedByT (coap_insert_node
      [⟨1, 0, 1, 0, 10, ⟨.CON, 10, [1]⟩⟩, ⟨5, 0, 1, 0, 11, ⟨.CON, 11, [2]⟩⟩]
      ⟨3, 0, 1, 0, 12, ⟨.CON, 12, [3]⟩⟩) := by
  have h := coap_sendqueue_order_spec
    [⟨1, 0, 1, 0, 10, ⟨.CON, 10, [1]⟩⟩, ⟨5, 0, 1, 0, 11, ⟨.CON, 11, [2]⟩⟩]
    ⟨3, 0, 1, 0, 12, ⟨.CON, 12, [3]⟩⟩
    ⟨[], []⟩
    (by simp [sortedByT]) (by simp [sortedByT])
  exact h.1

/-- Modelled from the spec: the option filter of option.h (not under src/),
a set over option numbers; `coap_option_filter_set` adds a number to it. -/
def coap_option_filter_set (f : List Nat) (ty : Nat) : List Nat := ty :: f

/-- From src/ (net.h, COAP_STATIC_INLINE): `coap_register_option` registers
the option number with the context by setting it in the known_options
filter via coap_option_filter_set. -/
def coap_register_option (ctx : coap_context_t) (ty : Nat) : coap_context_t :=
  { ctx with known_options := coap_option_filter_set ctx.known_options ty }

/-- Modelled from the spec: `coap_option_check_critical` (body not under src/)
verifies that the PDU (represented by its list of option numbers) contains no
unknown critical option; a critical option is one whose number is odd.  It
returns 1 (true) iff every critical option is registered among the known
options, and the unknown filter is updated to collect the unknown critical
option numbers found. -/
def coap_option_check_critical (known : List Nat) : List Nat → Bool × List Nat
  | [] => (true, [])
  | o :: rest =>
    let res := coap_option_check_critical known rest
    if o % 2 = 1 ∧ o ∉ known then (false, o :: res.2) else res

/-- Action taken by dispatch on a request. -/
inductive RequestAction where
  | respond402 (optionNumbers : List Nat)
  | handOff
deriving DecidableEq, Repr

/-- Modelled from the spec: the request path of dispatch validates critical
options against the known-options filter; unknown criticals cause an
automatic 4.02 response listing the offending option numbers, otherwise the
request is handed off to the resource tree. -/
def coap_dispatch_request (known : List Nat) (opts : List Nat) : RequestAction :=
  let res := coap_option_check_critical known opts
  if res.1 then .handOff else .respond402 res.2

theorem coap_option_check_critical_fst (known opts : List Nat) :
    (coap_option_check_critical known opts).1 = true ↔
      ∀ o ∈ opts, o % 2 = 1 → o ∈ known := by
  induction opts with
  | nil => simp [coap_option_check_critical]
  | cons o rest ih =>
    by_cases h : o % 2 = 1 ∧ o ∉ known
    · have heq : (coap_option_check_critical known (o :: rest)).1 = false := by
        simp [coap_option_check_critical, h]
      rw [heq]
      simp only [Bool.false_eq_true, false_iff]
      intro hall
      exact h.2 (hall o (List.mem_cons_self o rest) h.1)
    · have heq : (coap_option_check_critical known (o :: rest)).1
          = (coap_option_check_critical known rest).1 := by
        simp [coap_option_check_critical, h]
      rw [heq, ih]
      constructor
      · intro hall o2 ho2 hcrit
        rcases List.mem_cons.mp ho2 with he | he
        · subst he
          by_contra hn
          exact h ⟨hcrit, hn⟩
        · exact hall o2 he hcrit
      · intro hall o2 ho2 hcrit
        exact hall o2 (List.mem_cons_of_mem o ho2) hcrit

theorem coap_option_check_critical_snd (known opts : List Nat) :
    (coap_option_check_critical known opts).2
      = opts.filter (fun o => decide (o % 2 = 1) && !(decide (o ∈ known))) := by
  induction opts with
  | nil => rfl
  | cons o rest ih =>
    by_cases h : o % 2 = 1 ∧ o ∉ known
    · have hb : (decide (o % 2 = 1) && !(decide (o ∈ known))) = true := by
        simp [h.1, h.2]
      simp [coap_option_check_critical, h, List.filter_cons, hb, ih]
    · have hb : (decide (o % 2 = 1) && !(decide (o ∈ known))) = false := by
        rcases not_and_or.mp h with h1 | h1 <;> simp at h1 <;> simp [h1]
      simp [coap_option_check_critical, h, List.filter_cons, hb, ih]

/-- C5: `coap_option_check_critical` returns 1 iff the PDU contains no
critical (odd-numbered) option that is not registered in the known-options
filter of the context; the unknown filter collects exactly the unknown
critical option numbers found; and when the check fails dispatch answers the
request with an automatic 4.02 listing exactly those numbers. -/
theorem coap_option_check_critical_spec (ctx : coap_context_t)
    (opts : List Nat) :
    ((coap_option_check_critical ctx.known_options opts).1 = true ↔
      ∀ o ∈ opts, o % 2 = 1 → o ∈ ctx.known_options) ∧
    ((coap_option_check_critical ctx.known_options opts).2
      = opts.filter
          (fun o => decide (o % 2 = 1) && !(decide (o ∈ ctx.known_options)))) ∧
    ((coap_option_check_critical ctx.known_options opts).1 = false →
      coap_dispatch_request ctx.known_options opts
        = .respond402 ((coap_option_check_critical ctx.known_options opts).2)) := by
  refine ⟨coap_option_check_critical_fst _ _,
          coap_option_check_critical_snd _ _, ?_⟩
  intro hfail
  simp [coap_dispatch_request, hfail]

/-- Witness for C5: option 3 is critical and unknown in a context knowing
only option 1, so dispatch responds 4.02 listing it. -/
theorem coap_option_check_critical_spec_witness :
    coap_dispatch_request (coap_context_t.mk [1] []).known_options [3]
      = .respond402
          ((coap_option_check_critical (coap_context_t.mk [1] []).known_options
            [3]).2) :=
  (coap_option_check_critical_spec ⟨[1], []⟩ [3]).2.2 (by decide)

/-- From src/ (net.h): enum coap_response_t; COAP_RESPONSE_FAIL means the
response was not liked and a CoAP RST packet is sent, COAP_RESPONSE_OK means
the response is fine. -/
inductive coap_response_t where
  | COAP_RESPONSE_FAIL
  | COAP_RESPONSE_OK
deriving DecidableEq, Repr

/-- Follow-up transmission selected after invoking the response handler. -/
inductive FollowUp where
  | sendAck
  | sendRst
  | nothingMore
deriving DecidableEq, Repr

/-- Observable outcome of dispatching one response PDU: the send queue after
removal, the list of response-handler invocations (matched entry and
received PDU), and the follow-up transmission. -/
structure DispatchOutcome where
  sendqueue : List coap_queue_t
  handlerCalls : List (coap_queue_t × coap_pdu_t)
  followUp : FollowUp
deriving DecidableEq, Repr

/-- Look up the outstanding request entry matching the given token. -/
def findByToken (q : List coap_queue_t) (token : List Nat) :
    Option coap_queue_t :=
  q.find? (fun e => decide (e.pdu.token = token))

/-- Modelled from the spec: the response path of coap_dispatch (body not
under src/): look up the outstanding request by token; remove its send-queue
entry; invoke the response handler once; the handler result selects OK (send
the piggy-backed ACK if not yet sent) or FAIL (send an RST packet). -/
def coap_dispatch_response (q : List coap_queue_t)
    (handler : coap_pdu_t → coap_pdu_t → coap_response_t)
    (received : coap_pdu_t) (ackSent : Bool) : DispatchOutcome :=
  match findByToken q received.token with
  | none => ⟨q, [], .nothingMore⟩
  | some e =>
    let q2 := q.eraseP (fun x => decide (x.pdu.token = received.token))
    let fu := match handler e.pdu received with
      | .COAP_RESPONSE_OK => if ackSent then FollowUp.nothingMore else .sendAck
      | .COAP_RESPONSE_FAIL => FollowUp.sendRst
    ⟨q2, [(e, received)], fu⟩

/-- C6: when a received response PDU matches an outstanding request by token,
the matched entry belongs to the queue and carries that token, the response
handler is invoked exactly once on it, the matching send-queue entry is
removed, and the handler result selects the follow-up: OK sends the
piggy-backed ACK only if one was not yet sent, FAIL sends an RST packet. -/
theorem coap_dispatch_response_spec (q : List coap_queue_t)
    (handler : coap_pdu_t → coap_pdu_t → coap_response_t)
    (received : coap_pdu_t) (ackSent : Bool) (e : coap_queue_t)
    (hfind : findByToken q received.token = some e) :
    e ∈ q ∧ e.pdu.token = received.token ∧
    (coap_dispatch_response q handler received ackSent).handlerCalls
      = [(e, received)] ∧
    (coap_dispatch_response q handler received ackSent).sendqueue
      = q.eraseP (fun x => decide (x.pdu.token = received.token)) ∧
    (handler e.pdu received = .COAP_RESPONSE_OK →
      (coap_dispatch_response q handler received ackSent).followUp
        = if ackSent then FollowUp.nothingMore else FollowUp.sendAck) ∧
    (handler e.pdu received = .COAP_RESPONSE_FAIL →
      (coap_dispatch_response q handler received ackSent).followUp
        = FollowUp.sendRst) := by
  have hmem : e ∈ q := List.mem_of_find?_eq_some hfind
  have htok : e.pdu.token = received.token := by
    have := List.find?_some hfind
    exact of_decide_eq_true this
  refine ⟨hmem, htok, ?_, ?_, ?_, ?_⟩
  · simp [coap_dispatch_response, hfind]
  · simp [coap_dispatch_response, hfind]
  · intro hok
    simp [coap_dispatch_response, hfind, hok]
  · intro hfail
    simp [coap_dispatch_response, hfind, hfail]

/-- Witness for C6: a one-entry queue matched by token, handler returning OK
with no ACK yet sent selects the piggy-backed ACK. -/
theorem coap_dispatch_response_spec_witness :
    (coap_dispatch_response [⟨9, 0, 2, 1, 77, ⟨.CON, 77, [5]⟩⟩]
        (fun _ _ => .COAP_RESPONSE_OK) ⟨.ACK, 77, [5]⟩ false).followUp
      = FollowUp.sendAck :=
  ((coap_dispatch_response_spec [⟨9, 0, 2, 1, 77, ⟨.CON, 77, [5]⟩⟩]
      (fun _ _ => .COAP_RESPONSE_OK) ⟨.ACK, 77, [5]⟩ false
      ⟨9, 0, 2, 1, 77, ⟨.CON, 77, [5]⟩⟩ (by decide)).2.2.2.2.1 rfl)

/-- Modelled from the spec: `coap_cancel_all_messages` (body not under src/)
removes from the send queue every outstanding confirmable entry of the given
session whose PDU carries the given token, invoking the nack handler with
reason CANCELLED for each; every other entry is kept. -/
def coap_cancel_all_messages (q : List coap_queue_t) (session : Nat)
    (token : List Nat) : List coap_queue_t × List NackEvent :=
  match q with
  | [] => ([], [])
  | e :: rest =>
    let res := coap_cancel_all_messages rest session token
    if e.session = session ∧ e.pdu.token = token then
      (res.1, ⟨e.session, e.id, .cancelled, e.pdu⟩ :: res.2)
    else
      (e :: res.1, res.2)

/-- Modelled from the spec: `coap_cancel_session_messages` (body not under
src/) removes every outstanding confirmable entry of the given session from
the send queue, invoking the nack handler with the supplied reason for
each. -/
def coap_cancel_session_messages (q : List coap_queue_t) (session : Nat)
    (reason : coap_nack_reason_t) : List coap_queue_t × List NackEvent :=
  match q with
  | [] => ([], [])
  | e :: rest =>
    let res := coap_cancel_session_messages rest session reason
    if e.session = session then
      (res.1, ⟨e.session, e.id, reason, e.pdu⟩ :: res.2)
    else
      (e :: res.1, res.2)

/-- C9: cancel-by-token removes exactly the entries of the given session
whose PDU carries the given token, emits a CANCELLED nack for each of them,
and leaves every entry of other sessions or with other tokens unchanged
in place; cancel-session removes exactly the entries of the session and
emits a nack with the supplied reason for each. -/
theorem coap_cancel_messages_spec (q : List coap_queue_t) (session : Nat)
    (token : List Nat) (reason : coap_nack_reason_t) :
    (coap_cancel_all_messages q session token).1
      = q.filter (fun e =>
          !(decide (e.session = session) && decide (e.pdu.token = token))) ∧
    (coap_cancel_all_messages q session token).2
      = (q.filter (fun e =>
            decide (e.session = session) && decide (e.pdu.token = token))).map
          (fun e => ⟨e.session, e.id, .cancelled, e.pdu⟩) ∧
    (∀ ev ∈ (coap_cancel_all_messages q session token).2,
      ev.reason = .cancelled) ∧
    (coap_cancel_session_messages q session reason).1
      = q.filter (fun e => !(decide (e.session = session))) ∧
    (coap_cancel_session_messages q session reason).2
      = (q.filter (fun e => decide (e.session = session))).map
          (fun e => ⟨e.session, e.id, reason, e.pdu⟩) := by
  refine ⟨?_, ?_, ?_, ?_, ?_⟩
  · induction q with
    | nil => rfl
    | cons e rest ih =>
      by_cases h : e.session = session ∧ e.pdu.token = token
      · simp [coap_cancel_all_messages, h, List.filter_cons, h.1, h.2, ih]
      · have hb : (decide (e.session = session)
            && decide (e.pdu.token = token)) = false := by
          rcases not_and_or.mp h with h1 | h1 <;> simp [h1]
        simp [coap_cancel_all_messages, h, List.filter_cons, hb, ih,
          not_and_or.mp h]
  · induction q with
    | nil => rfl
    | cons e rest ih =>
      by_cases h : e.session = session ∧ e.pdu.token = token
      · simp [coap_cancel_all_messages, h, List.filter_cons, h.1, h.2, ih]
      · have hb : (decide (e.session = session)
            && decide (e.pdu.token = token)) = false := by
          rcases not_and_or.mp h with h1 | h1 <;> simp [h1]
        simp [coap_cancel_all_messages, h, List.filter_cons, hb, ih,
          not_and_or.mp h]
  · induction q with
    | nil => intro ev hev; cases hev
    | cons e rest ih =>
      intro ev hev
      by_cases h : e.session = session ∧ e.pdu.token = token
      · rw [coap_cancel_all_messages] at hev
        simp only [h, and_self, if_true, List.mem_cons] at hev
        rcases hev with hev | hev
        · rw [hev]
        · exact ih ev hev
      · rw [coap_cancel_all_messages] at hev
        simp only [h, if_false] at hev
        exact ih ev hev
  · induction q with
    | nil => rfl
    | cons e rest ih =>
      by_cases h : e.session = session
      · simp [coap_cancel_session_messages, h, List.filter_cons, ih]
      · simp [coap_cancel_session_messages, h, List.filter_cons, ih]
  · induction q with
    | nil => rfl
    | cons e rest ih =>
      by_cases h : e.session = session
      · simp [coap_cancel_session_messages, h, List.filter_cons, ih]
      · simp [coap_cancel_session_messages, h, List.filter_cons, ih]

/-- The sentinel invalid message id COAP_INVALID_MID (pdu.h is not under
src/; the spec calls it a sentinel invalid message-ID, distinct from every
valid 16-bit message id). -/
def COAP_INVALID_MID : Int := -1

/-- Synchronous egress conditions visible to coap_send, modelled from the
spec: a transport-level synchronous failure, or back-pressure (WOULDBLOCK)
with the bounded per-session pending list already full (QUEUE_FULL). -/
structure EgressState where
  transport_failed : Bool
  would_block : Bool
  pending_len : Nat
  pending_cap : Nat
deriving DecidableEq, Repr

/-- QUEUE_FULL: the egress pending buffer is exhausted. -/
def queueFull (st : EgressState) : Bool :=
  st.would_block && decide (st.pending_cap ≤ st.pending_len)

/-- Any synchronous send error visible to the caller of coap_send. -/
def syncSendFailure (st : EgressState) : Bool :=
  st.transport_failed || queueFull st

/-- Modelled from the spec: `coap_send` (body not under src/) returns the
message id of the sent message, or the sentinel COAP_INVALID_MID on any
synchronous send error, QUEUE_FULL included. -/
def coap_send (st : EgressState) (mid : Nat) : Int :=
  if syncSendFailure st then COAP_INVALID_MID else (mid : Int)

/-- C7: `coap_send` returns the message id on success and COAP_INVALID_MID
exactly on a synchronous send error (QUEUE_FULL included); failures occurring
after enqueue never flow into the return value: retransmission exhaustion of
an already enqueued CON is reported as a nack event with reason TIMEOUT. -/
theorem coap_send_spec (st : EgressState) (mid : Nat) :
    (syncSendFailure st = false → coap_send st mid = (mid : Int)) ∧
    (queueFull st = true → coap_send st mid = COAP_INVALID_MID) ∧
    (coap_send st mid = COAP_INVALID_MID ↔ syncSendFailure st = true) ∧
    (∀ now : Nat, ∀ node : coap_queue_t,
      MAX_RETRANSMIT ≤ node.retransmit_cnt →
      coap_retransmit now node
        = .dropped ⟨node.session, node.id, .timeout, node.pdu⟩) := by
  refine ⟨?_, ?_, ?_, ?_⟩
  · intro h
    simp [coap_send, h]
  · intro h
    simp [coap_send, syncSendFailure, h]
  · cases h : syncSendFailure st
    · simp only [coap_send, h, Bool.false_eq_true, if_false, COAP_INVALID_MID]
      constructor
      · intro habs
        omega
      · intro habs
        cases habs
    · simp [coap_send, h]
  · intro now node h
    simp [coap_retransmit, Nat.not_lt.mpr h]

/-- Witness for C7: a full pending buffer under back-pressure makes
coap_send return the sentinel. -/
theorem coap_send_spec_witness :
    coap_send ⟨false, true, 5, 5⟩ 7 = COAP_INVALID_MID :=
  (coap_send_spec ⟨false, true, 5, 5⟩ 7).2.1 (by decide)

/-- From src/ (net.h): #define COAP_IO_WAIT 0. -/
def COAP_IO_WAIT : Nat := 0

/-- From src/ (net.h): #define COAP_IO_NO_WAIT ((uint32_t)-1), i.e. the
uint32 value 2 ^ 32 - 1. -/
def COAP_IO_NO_WAIT : Nat := 2 ^ 32 - 1

/-- Waiting behaviour of one coap_io_process call. -/
inductive IoWaitMode where
  | returnImmediately
  | blockUntilDeadlineOrIngress
  | waitAtMost (ms : Nat)
deriving DecidableEq, Repr

/-- Modelled from the spec: the waiting behaviour of coap_io_process (body
not under src/), per its documentation in net.h: with timeout_ms =
COAP_IO_WAIT the call blocks until the next internal action (for example a
packet retransmit) or until the next packet is received, whichever is the
sooner; with timeout_ms = COAP_IO_NO_WAIT it returns immediately after
processing without waiting for any new input packets; any other value waits
at most that many milliseconds for new packets. -/
def coap_io_process_mode (timeout_ms : Nat) : IoWaitMode :=
  if timeout_ms = COAP_IO_NO_WAIT then .returnImmediately
  else if timeout_ms = COAP_IO_WAIT then .blockUntilDeadlineOrIngress
  else .waitAtMost timeout_ms

/-- Modelled from the spec: the return value of coap_io_process: the number
of milliseconds spent in the function, or -1 on error. -/
def coap_io_process_ret (err : Bool) (elapsed_ms : Nat) : Int :=
  if err then -1 else (elapsed_ms : Int)

/-- Observable outcome of one coap_io_process call in this model: its
waiting behaviour and its return value. -/
def coap_io_process (timeout_ms : Nat) (err : Bool) (elapsed_ms : Nat) :
    IoWaitMode × Int :=
  (coap_io_process_mode timeout_ms, coap_io_process_ret err elapsed_ms)

/-- From src/ (net.h, COAP_STATIC_INLINE, COAP_DEPRECATED): `coap_run_once`
just calls coap_io_process with the same arguments and returns its result. -/
def coap_run_once (timeout_ms : Nat) (err : Bool) (elapsed_ms : Nat) :
    IoWaitMode × Int :=
  coap_io_process timeout_ms err elapsed_ms

theorem coap_io_process_mode_no_wait :
    coap_io_process_mode COAP_IO_NO_WAIT = .returnImmediately := by
  simp [coap_io_process_mode]

theorem coap_io_process_mode_wait :
    coap_io_process_mode COAP_IO_WAIT = .blockUntilDeadlineOrIngress := by
  have h : COAP_IO_WAIT ≠ COAP_IO_NO_WAIT := by decide
  simp [coap_io_process_mode, h]

/-- C1 counterexample: the claim as stated is false at timeout_ms = 0.  In
the source, 0 is COAP_IO_WAIT, which blocks until the next internal deadline
or ingress, and it is COAP_IO_NO_WAIT = 2 ^ 32 - 1 (the uint32 rendering of
the infinite timeout) that returns immediately after processing — the
opposite of the claimed association. -/
theorem coap_io_process_claim_counterexample :
    coap_io_process_mode 0 = .blockUntilDeadlineOrIngress ∧
    coap_io_process_mode 0 ≠ .returnImmediately ∧
    coap_io_process_mode COAP_IO_NO_WAIT = .returnImmediately ∧
    coap_io_process_mode COAP_IO_NO_WAIT ≠ .blockUntilDeadlineOrIngress := by
  refine ⟨coap_io_process_mode_wait, ?_, coap_io_process_mode_no_wait, ?_⟩
  · have h0 : coap_io_process_mode 0 = .blockUntilDeadlineOrIngress :=
      coap_io_process_mode_wait
    rw [h0]
    intro h
    cases h
  · rw [coap_io_process_mode_no_wait]
    intro h
    cases h

/-- C1 (amended): coap_io_process with timeout_ms = COAP_IO_NO_WAIT (the
uint32 rendering of ∞, 2 ^ 32 - 1) returns immediately after processing
pending work without waiting; with timeout_ms = COAP_IO_WAIT (0) it blocks
until the next internal deadline or ingress, whichever comes first; and the
call returns the elapsed wall-clock milliseconds, or -1 on unrecoverable
I/O error. -/
theorem coap_io_process_spec (timeout_ms : Nat) (err : Bool)
    (elapsed_ms : Nat) :
    (coap_io_process COAP_IO_NO_WAIT err elapsed_ms).1
      = .returnImmediately ∧
    (coap_io_process COAP_IO_WAIT err elapsed_ms).1
      = .blockUntilDeadlineOrIngress ∧
    (err = true →
      (coap_io_process timeout_ms err elapsed_ms).2 = -1) ∧
    (err = false →
      (coap_io_process timeout_ms err elapsed_ms).2 = (elapsed_ms : Int)) := by
  refine ⟨coap_io_process_mode_no_wait, coap_io_process_mode_wait, ?_, ?_⟩
  · intro h
    simp [coap_io_process, coap_io_process_ret, h]
  · intro h
    simp [coap_io_process, coap_io_process_ret, h]

/-- Witness for the amended C1 at a concrete erroring call. -/
theorem coap_io_process_spec_witness :
    (coap_io_process 5 true 3).2 = -1 :=
  (coap_io_process_spec 5 true 3).2.2.1 rfl

/-- C10: the deprecated entry point coap_run_once is a pure pass-through
wrapper: on every argument it returns exactly the result of coap_io_process
on the same arguments. -/
theorem coap_run_once_spec (timeout_ms : Nat) (err : Bool)
    (elapsed_ms : Nat) :
    coap_run_once timeout_ms err elapsed_ms
      = coap_io_process timeout_ms err elapsed_ms := rfl

end LibCoap
